import Mathlib

/-!
Shallow embedding of the um-32 Universal Machine interpreter
(`src/src/lib.rs`): the operator decoder, the CPU state (registers,
program counter, halted flag, memory arena, reuse pool), the fourteen
operator handlers, and one iteration of the `spin_cycle` loop.

Machine words are modelled as `Nat` with explicit reductions modulo
`2 ^ 32` where the Rust `u32` arithmetic wraps (release-profile
semantics).  The `HashMap<u32, Box<[u32]>>` arena is modelled as an
association list with in-place replacing insert, so that `len`,
`get`, `insert` and `remove` agree with the Rust map on states whose
keys are duplicate-free (which every reachable state is).  Fallible
handler code (`expect`, `fail!`, `panic!`, out-of-bounds indexing)
returns `Option`, with `none` marking the fatal outcome.
-/

namespace Um32

/-- The `Operator(u32)` newtype around an instruction word. -/
structure Operator where
  w : Nat

namespace Operator

/-- Field `A`: `(self.0 & 0o700) >> 6`. -/
def A (op : Operator) : Nat := (op.w &&& 0o700) >>> 6

/-- Field `B`: `(self.0 & 0o70) >> 3`. -/
def B (op : Operator) : Nat := (op.w &&& 0o70) >>> 3

/-- Field `C`: `self.0 & 0o7`. -/
def C (op : Operator) : Nat := op.w &&& 0o7

/-- Opcode: `(self.0 & 0xf0000000) >> 28`. -/
def number (op : Operator) : Nat := (op.w &&& 0xf0000000) >>> 28

/-- Special A field for opcode 13: `(self.0 & 0x0e000000) >> 25`. -/
def A_special (op : Operator) : Nat := (op.w &&& 0x0e000000) >>> 25

/-- Orthography immediate: `self.0 & 0x00ffffff` (a 24-bit mask). -/
def value (op : Operator) : Nat := op.w &&& 0x00ffffff

end Operator

/-- Lookup in the association-list model of `HashMap::get`. -/
def mapGet (k : Nat) : List (Nat × List Nat) → Option (List Nat)
  | [] => none
  | (k', v) :: rest => if k' = k then some v else mapGet k rest

/-- `HashMap::insert`: replace in place if the key is present, else append. -/
def mapInsert (k : Nat) (v : List Nat) : List (Nat × List Nat) → List (Nat × List Nat)
  | [] => [(k, v)]
  | (k', v') :: rest => if k' = k then (k, v) :: rest else (k', v') :: mapInsert k v rest

/-- `HashMap::remove`: drop the entry with the given key, if any. -/
def mapRemove (k : Nat) : List (Nat × List Nat) → List (Nat × List Nat)
  | [] => []
  | (k', v') :: rest => if k' = k then rest else (k', v') :: mapRemove k rest

/-- The `Cpu` struct of `lib.rs`. -/
structure Cpu where
  regs : Fin 8 → Nat
  pc : Nat
  halted : Bool
  memory : List (Nat × List Nat)
  reuse : List Nat

/-- Read `self.regs[i]` (register indices decoded from 3-bit fields). -/
def getReg (c : Cpu) (i : Nat) : Nat := c.regs ⟨i % 8, Nat.mod_lt i (by norm_num)⟩

/-- Write `self.regs[i] = v`. -/
def setReg (c : Cpu) (i : Nat) (v : Nat) : Cpu :=
  { c with regs := Function.update c.regs ⟨i % 8, Nat.mod_lt i (by norm_num)⟩ v }

/-- `Cpu::new`: zero registers, pc 0, not halted, the program scroll at key 0. -/
def Cpu.new (program_scroll : List Nat) : Cpu :=
  { regs := fun _ => 0
    pc := 0
    halted := false
    memory := mapInsert 0 program_scroll []
    reuse := [] }

/-- Opcode 0, `Cpu::conditional_move`. -/
def conditional_move (c : Cpu) (op : Operator) : Cpu :=
  if getReg c op.C ≠ 0 then setReg c op.A (getReg c op.B) else c

/-- Opcode 1, `Cpu::array_index`; `none` models the `expect`/index panics. -/
def array_index (c : Cpu) (op : Operator) : Option Cpu :=
  match mapGet (getReg c op.B) c.memory with
  | none => none
  | some arr =>
    match arr[getReg c op.C]? with
    | none => none
    | some w => some (setReg c op.A w)

/-- Opcode 2, `Cpu::array_amendment`. -/
def array_amendment (c : Cpu) (op : Operator) : Option Cpu :=
  match mapGet (getReg c op.A) c.memory with
  | none => none
  | some arr =>
    if getReg c op.B < arr.length then
      some { c with
              memory := mapInsert (getReg c op.A)
                          (arr.set (getReg c op.B) (getReg c op.C)) c.memory }
    else none

/-- Opcode 3, `Cpu::addition`: the wrapping `+` followed by the source's
`% u32::MAX`, i.e. a reduction modulo `2 ^ 32 - 1`, not `2 ^ 32`. -/
def addition (c : Cpu) (op : Operator) : Cpu :=
  setReg c op.A (((getReg c op.B + getReg c op.C) % 2 ^ 32) % (2 ^ 32 - 1))

/-- Opcode 4, `Cpu::multiplication`: wrapping `*` followed by `% u32::MAX`. -/
def multiplication (c : Cpu) (op : Operator) : Cpu :=
  setReg c op.A (((getReg c op.B * getReg c op.C) % 2 ^ 32) % (2 ^ 32 - 1))

/-- Opcode 5, `Cpu::division`; `none` models the divide-by-zero panic. -/
def division (c : Cpu) (op : Operator) : Option Cpu :=
  if getReg c op.C = 0 then none
  else some (setReg c op.A (getReg c op.B / getReg c op.C))

/-- Opcode 6, `Cpu::not_and`: `!(B & C)` on 32 bits. -/
def not_and (c : Cpu) (op : Operator) : Cpu :=
  setReg c op.A ((getReg c op.B &&& getReg c op.C) ^^^ (2 ^ 32 - 1))

/-- Opcode 7, `Cpu::halt`. -/
def halt (c : Cpu) (_op : Operator) : Cpu := { c with halted := true }

/-- The identifier `Cpu::allocation` picks: pop the reuse vector if
non-empty (Rust `Vec::pop` takes the last element), else
`self.memory.len() as u32 + 1` with the `u32` truncation and wrap. -/
def allocIdx (c : Cpu) : Nat :=
  match c.reuse.getLast? with
  | some i => i
  | none => ((c.memory.length % 2 ^ 32) + 1) % 2 ^ 32

/-- Opcode 8, `Cpu::allocation`; `none` models the
`BUG: index incorrectly calculated` panic branch.  Note that the
handler writes no register. -/
def allocation (c : Cpu) (op : Operator) : Option Cpu :=
  match mapGet (allocIdx c) c.memory with
  | some _ => none
  | none =>
    some { c with
            memory := mapInsert (allocIdx c) (List.replicate (getReg c op.C) 0) c.memory
            reuse := if c.reuse.isEmpty then c.reuse else c.reuse.dropLast }

/-- Opcode 9, `Cpu::abandonment`; `none` models the two `fail!` exits. -/
def abandonment (c : Cpu) (op : Operator) : Option Cpu :=
  if getReg c op.C = 0 then none
  else
    match mapGet (getReg c op.C) c.memory with
    | none => none
    | some _ =>
      some { c with
              memory := mapRemove (getReg c op.C) c.memory
              reuse := c.reuse ++ [getReg c op.C] }

/-- Opcode 10, `Cpu::output`: emits `self.regs[op.C()] as u8`, the low
8 bits, unconditionally; the state is untouched and no value check exists. -/
def output (c : Cpu) (op : Operator) : Cpu × Nat :=
  (c, getReg c op.C % 256)

/-- Opcode 11, `Cpu::input`; the argument is the byte read from stdin,
`none` at end-of-stream, where `read_exact(..).expect(..)` panics. -/
def input (c : Cpu) (op : Operator) (b : Option Nat) : Option Cpu :=
  match b with
  | none => none
  | some byte => some (setReg c op.C (byte % 256))

/-- Opcode 12, `Cpu::load_program`: clone the array at `R[B]`, install it
at key 0, and set `pc` to `op.C()` — the 3-bit C field itself. -/
def load_program (c : Cpu) (op : Operator) : Option Cpu :=
  match mapGet (getReg c op.B) c.memory with
  | none => none
  | some program => some { c with memory := mapInsert 0 program c.memory, pc := op.C }

/-- Opcode 13, `Cpu::orthography`. -/
def orthography (c : Cpu) (op : Operator) : Cpu :=
  setReg c (Operator.A_special op) (Operator.value op)

/-- Dispatch of one decoded instruction word, the `match op.number()`
of `spin_cycle`.  The second component is the byte emitted by opcode 10,
the `inp` argument the stdin byte consumed by opcode 11.  `none` is any
fatal exit (`fail!`, panic). -/
def execOp (c : Cpu) (w : Nat) (inp : Option Nat) : Option (Cpu × Option Nat) :=
  match Operator.number ⟨w⟩ with
  | 0 => some (conditional_move c ⟨w⟩, none)
  | 1 => (array_index c ⟨w⟩).map (fun x => (x, none))
  | 2 => (array_amendment c ⟨w⟩).map (fun x => (x, none))
  | 3 => some (addition c ⟨w⟩, none)
  | 4 => some (multiplication c ⟨w⟩, none)
  | 5 => (division c ⟨w⟩).map (fun x => (x, none))
  | 6 => some (not_and c ⟨w⟩, none)
  | 7 => some (halt c ⟨w⟩, none)
  | 8 => (allocation c ⟨w⟩).map (fun x => (x, none))
  | 9 => (abandonment c ⟨w⟩).map (fun x => (x, none))
  | 10 => some ((output c ⟨w⟩).1, some (output c ⟨w⟩).2)
  | 11 => (input c ⟨w⟩ inp).map (fun x => (x, none))
  | 12 => (load_program c ⟨w⟩).map (fun x => (x, none))
  | 13 => some (orthography c ⟨w⟩, none)
  | _ => none

/-- One iteration of the `spin_cycle` while-body: fetch the word at
offset `pc` of array 0, decode, dispatch.  `spin_cycle` contains no
program-counter increment, so only the handlers touch `pc`. -/
def step (c : Cpu) (inp : Option Nat) : Option (Cpu × Option Nat) :=
  match mapGet 0 c.memory with
  | none => none
  | some prog =>
    match prog[c.pc]? with
    | none => none
    | some w => execOp c w inp

/-- Reachability by the `spin_cycle` loop: iterate `step` from a start
state, only from non-halted states, with arbitrary stdin bytes. -/
inductive Reaches : Cpu → Cpu → Prop where
  | refl (c : Cpu) : Reaches c c
  | tail {a b c : Cpu} {inp out : Option Nat} :
      Reaches a b → b.halted = false → step b inp = some (c, out) → Reaches a c

/-- The non-register components of a `Cpu`, for frame statements. -/
def frameRest (c : Cpu) : Bool × List (Nat × List Nat) × List Nat :=
  (c.halted, c.memory, c.reuse)

/-- Test state for the addition modulus: `R[1] = 0xFFFFFFFF`, `R[2] = 0`. -/
def cAdd : Cpu := setReg (Cpu.new []) 1 (2 ^ 32 - 1)

/-- Test state for the multiplication modulus: `R[1] = 0xFFFFFFFF`, `R[2] = 1`. -/
def cMul : Cpu := setReg (setReg (Cpu.new []) 1 (2 ^ 32 - 1)) 2 1

/-- Test state for Load Program: array 0 holds the instruction, `R[1] = 42`. -/
def cLoad : Cpu := setReg (Cpu.new [0xC0000001]) 1 42

/-- Test state for Output: program `[0xA0000000]` (Output of register 0)
with `R[0] = 256`, a value above 255. -/
def cOut : Cpu := setReg (Cpu.new [0xA0000000]) 0 256

/-- State after `n` successful Allocation steps of the one-instruction
program `[0x80000000]` (Allocation with `C = 0`): keys `0` and
`2, 3, ..., n + 1`, all registers zero, `pc = 0`, empty reuse pool. -/
def allocState (n : Nat) : Cpu :=
  { regs := fun _ => 0
    pc := 0
    halted := false
    memory := (0, [0x80000000]) :: (List.range n).map (fun i => (i + 2, ([] : List Nat)))
    reuse := [] }

/-- Inserting at a key returns that key's new value on lookup. -/
theorem mapGet_mapInsert_self :
    ∀ (m : List (Nat × List Nat)) (k : Nat) (v : List Nat),
      mapGet k (mapInsert k v m) = some v
  | [], k, v => by simp [mapGet, mapInsert]
  | (k', v') :: rest, k, v => by
    by_cases h : k' = k
    · simp [mapGet, mapInsert, h]
    · simp [mapGet, mapInsert, h, mapGet_mapInsert_self rest k v]

/-- Inserting at one key leaves lookups at a different key unchanged. -/
theorem mapGet_mapInsert_ne :
    ∀ (m : List (Nat × List Nat)) (k k' : Nat) (v : List Nat),
      k' ≠ k → mapGet k (mapInsert k' v m) = mapGet k m
  | [], k, k', v, h => by simp [mapGet, mapInsert, h]
  | (k'', v'') :: rest, k, k', v, h => by
    by_cases h2 : k'' = k'
    · subst h2; simp [mapGet, mapInsert, h]
    · simp [mapGet, mapInsert, h2, mapGet_mapInsert_ne rest k k' v h]

/-- A key bound by no entry looks up to `none`. -/
theorem mapGet_eq_none (l : List (Nat × List Nat)) (k : Nat)
    (h : ∀ p ∈ l, p.1 ≠ k) : mapGet k l = none := by
  induction l with
  | nil => rfl
  | cons hd tl ih =>
    obtain ⟨k', v'⟩ := hd
    have hk : k' ≠ k := h (k', v') (List.mem_cons_self _ _)
    simp only [mapGet, if_neg hk]
    exact ih fun p hp => h p (List.mem_cons_of_mem _ hp)

/-- Inserting a fresh key appends the new entry at the end. -/
theorem mapInsert_of_get_none (l : List (Nat × List Nat)) (k : Nat) (v : List Nat)
    (h : mapGet k l = none) : mapInsert k v l = l ++ [(k, v)] := by
  induction l with
  | nil => rfl
  | cons hd tl ih =>
    obtain ⟨k', v'⟩ := hd
    simp only [mapGet] at h
    by_cases hk : k' = k
    · rw [if_pos hk] at h; exact absurd h (by simp)
    · rw [if_neg hk] at h
      simp only [mapInsert, if_neg hk, List.cons_append]
      rw [ih h]

/-- The decoded A field is a register index below 8. -/
theorem opA_lt (op : Operator) : Operator.A op < 8 := by
  have h1 : op.w &&& 0o700 ≤ 0o700 := Nat.and_le_right
  have h2 : Operator.A op = (op.w &&& 0o700) / 2 ^ 6 := by
    rw [Operator.A, Nat.shiftRight_eq_div_pow]
  norm_num at h2
  omega

/-- The decoded special A field is a register index below 8. -/
theorem opAspecial_lt (op : Operator) : Operator.A_special op < 8 := by
  have h1 : op.w &&& 0x0e000000 ≤ 0x0e000000 := Nat.and_le_right
  have h2 : Operator.A_special op = (op.w &&& 0x0e000000) / 2 ^ 25 := by
    rw [Operator.A_special, Nat.shiftRight_eq_div_pow]
  norm_num at h2
  omega

/-- A register write leaves every other register index unchanged. -/
theorem setReg_regs_of_ne (c : Cpu) (j v : Nat) (i : Fin 8) (hj : j < 8)
    (h : (i : Nat) ≠ j) : (setReg c j v).regs i = c.regs i := by
  simp only [setReg]
  refine Function.update_noteq (Fin.ne_of_val_ne ?_) _ _
  simpa [Nat.mod_eq_of_lt hj] using h

/-- C1: at `R[B] = 0xFFFFFFFF`, `R[C] = 0` the Addition handler stores 0,
and at `R[B] = 0xFFFFFFFF`, `R[C] = 1` the Multiplication handler stores 0,
because both reduce with `% u32::MAX` (that is, modulo `2 ^ 32 - 1`);
the claimed value `(R[B] op R[C]) mod 2 ^ 32` is `0xFFFFFFFF` in both
cases. -/
theorem addition_multiplication_modulus_bug :
    getReg (addition cAdd ⟨0x3000000A⟩) 0 = 0 ∧
    (getReg cAdd 1 + getReg cAdd 2) % 2 ^ 32 = 2 ^ 32 - 1 ∧
    getReg (multiplication cMul ⟨0x4000000A⟩) 0 = 0 ∧
    (getReg cMul 1 * getReg cMul 2) % 2 ^ 32 = 2 ^ 32 - 1 := by decide

/-- C3: on a state with `R[0] = 0` (so the source is the live array 0) and
`R[1] = 42`, the Load Program handler for the word `0xC0000001`
(opcode 12, `B = 0`, `C = 1`) sets `pc` to 1 — the 3-bit C field of the
instruction — whereas the claim says `pc = R[C] = 42`. -/
theorem load_program_pc_bug :
    (load_program cLoad ⟨0xC0000001⟩).map (fun x => x.pc) = some 1 ∧
    getReg cLoad 1 = 42 := by decide

/-- C4: one cycle on the program `[0x30000000]` (Addition, opcode 3, not
Load Program) completes without error or halt, yet leaves `pc` at 0:
`spin_cycle` never increments the program counter. -/
theorem spin_cycle_no_increment_bug :
    Operator.number ⟨0x30000000⟩ = 3 ∧
    (Cpu.new [0x30000000]).pc = 0 ∧
    (step (Cpu.new [0x30000000]) none).map (fun x => x.1.halted) = some false ∧
    (step (Cpu.new [0x30000000]) none).map (fun x => x.1.pc) = some 0 := by decide

/-- C5: on a fresh CPU, the Allocation handler for the word `0x80000008`
(opcode 8, `B = 1`, `C = 0`) mints identifier 2 and binds it in the arena,
but stores nothing in register `B`: `R[1]` is still 0 afterwards. -/
theorem allocation_register_bug :
    allocIdx (Cpu.new [0x80000008]) = 2 ∧
    (allocation (Cpu.new [0x80000008]) ⟨0x80000008⟩).map
        (fun x => mapGet 2 x.memory) = some (some []) ∧
    (allocation (Cpu.new [0x80000008]) ⟨0x80000008⟩).map
        (fun x => getReg x 1) = some 0 := by decide

/-- C6: for the word `0xD1000000` (opcode 13 with bit 24 set) the decoder
returns immediate 0, because `Operator::value` masks with `0x00ffffff`
(24 bits); the claimed low-25-bit value is `0x1000000`.  Bit 24 is lost:
the Orthography handler stores 0 into special register 0. -/
theorem orthography_mask_bug :
    Operator.number ⟨0xD1000000⟩ = 13 ∧
    Operator.A_special ⟨0xD1000000⟩ = 0 ∧
    Operator.value ⟨0xD1000000⟩ = 0 ∧
    0xD1000000 % 2 ^ 25 = 0x1000000 ∧
    getReg (orthography (Cpu.new []) ⟨0xD1000000⟩) 0 = 0 := by decide

/-- C8: at end-of-stream the Input handler is fatal (`read_exact` +
`expect` panics, modelled as `none`); it does not store `0xFFFFFFFF`
into register C as the claim says. -/
theorem input_eof_bug (c : Cpu) (op : Operator) :
    input c op none = none ∧ input c op none ≠ some (setReg c op.C 0xFFFFFFFF) :=
  ⟨rfl, by simp [input]⟩

/-- C9 counterexample: with `R[C] = 256 > 255`, the Output cycle does not
fail — it completes, emitting the truncated byte 0. -/
theorem output_no_range_check_cex :
    getReg cOut 0 = 256 ∧
    Operator.number ⟨0xA0000000⟩ = 10 ∧
    (step cOut none).isSome = true ∧
    (step cOut none).map (fun x => x.2) = some (some 0) := by decide

/-- C7: a successful Load Program leaves the source array untouched: the
identifier `R[B]` is still bound afterwards, to exactly the words it held
before, so reading the source at any offset `i` yields the same word. -/
theorem load_program_preserves_source (c : Cpu) (op : Operator) (arr : List Nat)
    (i : Nat) (h : mapGet (getReg c op.B) c.memory = some arr) :
    (load_program c op).isSome = true ∧
    (load_program c op).map (fun x => mapGet (getReg c op.B) x.memory) =
      some (some arr) ∧
    (load_program c op).map
        (fun x => (mapGet (getReg c op.B) x.memory).map (fun a => a[i]?)) =
      some (some arr[i]?) := by
  have hl : load_program c op =
      some { c with memory := mapInsert 0 arr c.memory, pc := Operator.C op } := by
    simp only [load_program, h]
  have hm : mapGet (getReg c op.B) (mapInsert 0 arr c.memory) = some arr := by
    by_cases h0 : getReg c op.B = 0
    · rw [h0]; exact mapGet_mapInsert_self c.memory 0 arr
    · rw [mapGet_mapInsert_ne c.memory (getReg c op.B) 0 arr fun he => h0 he.symm]
      exact h
  refine ⟨?_, ?_, ?_⟩ <;> rw [hl] <;> simp [hm]

/-- C7 witness: Load Program of the word `0xC0000000` on a fresh CPU with
program `[7]` (so the source is array 0 itself). -/
theorem load_program_preserves_source_witness :
    (load_program (Cpu.new [7]) ⟨0xC0000000⟩).isSome = true ∧
    (load_program (Cpu.new [7]) ⟨0xC0000000⟩).map
        (fun x => mapGet (getReg (Cpu.new [7]) (Operator.B ⟨0xC0000000⟩)) x.memory) =
      some (some [7]) ∧
    (load_program (Cpu.new [7]) ⟨0xC0000000⟩).map
        (fun x => (mapGet (getReg (Cpu.new [7]) (Operator.B ⟨0xC0000000⟩)) x.memory).map
          (fun a => a[(0 : Nat)]?)) =
      some (some (([7] : List Nat)[(0 : Nat)]?)) :=
  load_program_preserves_source (Cpu.new [7]) ⟨0xC0000000⟩ [7] 0 (by decide)

/-- C9 amended: a cycle that dispatches opcode 10 always completes,
emitting the low 8 bits of `R[C]` and leaving the state unchanged —
values above 255 are silently truncated, never rejected. -/
theorem output_truncates (c : Cpu) (prog : List Nat) (w : Nat) (inp : Option Nat)
    (h0 : mapGet 0 c.memory = some prog) (h1 : prog[c.pc]? = some w)
    (h2 : Operator.number ⟨w⟩ = 10) :
    step c inp = some (c, some (getReg c (Operator.C ⟨w⟩) % 256)) := by
  unfold step
  rw [h0]
  dsimp only
  rw [h1]
  dsimp only
  unfold execOp
  rw [h2]
  rfl

/-- C9 amended witness: the Output cycle on `cOut` (where `R[0] = 256`)
emits `256 % 256 = 0` and succeeds. -/
theorem output_truncates_witness :
    step cOut none = some (cOut, some (getReg cOut (Operator.C ⟨0xA0000000⟩) % 256)) :=
  output_truncates cOut [0xA0000000] 0xA0000000 none (by decide) (by decide) (by decide)

/-- C10: each register-only handler (Conditional Move, Addition,
Multiplication, Division, Not-And, Orthography) writes at most the
destination register of its instruction: every other register index, and
the halted flag, arena mapping and reuse pool, are unchanged. -/
theorem register_only_frame (c : Cpu) (op : Operator) (i : Fin 8) :
    ((i : Nat) ≠ Operator.A op → (conditional_move c op).regs i = c.regs i) ∧
    ((i : Nat) ≠ Operator.A op → (addition c op).regs i = c.regs i) ∧
    ((i : Nat) ≠ Operator.A op → (multiplication c op).regs i = c.regs i) ∧
    ((i : Nat) ≠ Operator.A op → (not_and c op).regs i = c.regs i) ∧
    ((i : Nat) ≠ Operator.A_special op → (orthography c op).regs i = c.regs i) ∧
    ((i : Nat) ≠ Operator.A op →
      (division c op).map (fun x => x.regs i) =
        (division c op).map (fun _ => c.regs i)) ∧
    frameRest (conditional_move c op) = frameRest c ∧
    frameRest (addition c op) = frameRest c ∧
    frameRest (multiplication c op) = frameRest c ∧
    frameRest (not_and c op) = frameRest c ∧
    frameRest (orthography c op) = frameRest c ∧
    (division c op).map frameRest = (division c op).map (fun _ => frameRest c) := by
  refine ⟨?_, ?_, ?_, ?_, ?_, ?_, ?_, ?_, ?_, ?_, ?_, ?_⟩
  · intro h
    unfold conditional_move
    split
    · exact setReg_regs_of_ne c _ _ i (opA_lt op) h
    · rfl
  · intro h
    unfold addition
    exact setReg_regs_of_ne c _ _ i (opA_lt op) h
  · intro h
    unfold multiplication
    exact setReg_regs_of_ne c _ _ i (opA_lt op) h
  · intro h
    unfold not_and
    exact setReg_regs_of_ne c _ _ i (opA_lt op) h
  · intro h
    unfold orthography
    exact setReg_regs_of_ne c _ _ i (opAspecial_lt op) h
  · intro h
    unfold division
    split
    · rfl
    · exact congrArg some (setReg_regs_of_ne c _ _ i (opA_lt op) h)
  · unfold conditional_move
    split <;> rfl
  · rfl
  · rfl
  · rfl
  · rfl
  · unfold division
    split <;> rfl

/-- C10 witness: the frame facts at a fresh CPU, the all-zero instruction
word (destination fields 0) and the register index 1. -/
theorem register_only_frame_witness :
    (conditional_move (Cpu.new []) ⟨0⟩).regs 1 = (Cpu.new []).regs 1 ∧
    (addition (Cpu.new []) ⟨0⟩).regs 1 = (Cpu.new []).regs 1 ∧
    (multiplication (Cpu.new []) ⟨0⟩).regs 1 = (Cpu.new []).regs 1 ∧
    (not_and (Cpu.new []) ⟨0⟩).regs 1 = (Cpu.new []).regs 1 ∧
    (orthography (Cpu.new []) ⟨0⟩).regs 1 = (Cpu.new []).regs 1 ∧
    (division (Cpu.new []) ⟨0⟩).map (fun x => x.regs 1) =
      (division (Cpu.new []) ⟨0⟩).map (fun _ => (Cpu.new []).regs 1) ∧
    frameRest (conditional_move (Cpu.new []) ⟨0⟩) = frameRest (Cpu.new []) ∧
    frameRest (addition (Cpu.new []) ⟨0⟩) = frameRest (Cpu.new []) ∧
    frameRest (multiplication (Cpu.new []) ⟨0⟩) = frameRest (Cpu.new []) ∧
    frameRest (not_and (Cpu.new []) ⟨0⟩) = frameRest (Cpu.new []) ∧
    frameRest (orthography (Cpu.new []) ⟨0⟩) = frameRest (Cpu.new []) ∧
    (division (Cpu.new []) ⟨0⟩).map frameRest =
      (division (Cpu.new []) ⟨0⟩).map (fun _ => frameRest (Cpu.new [])) := by
  obtain ⟨h1, h2, h3, h4, h5, h6, h7, h8, h9, h10, h11, h12⟩ :=
    register_only_frame (Cpu.new []) ⟨0⟩ 1
  exact ⟨h1 (by decide), h2 (by decide), h3 (by decide), h4 (by decide),
    h5 (by decide), h6 (by decide), h7, h8, h9, h10, h11, h12⟩

/-- After `n` allocations the arena holds `n + 1` arrays. -/
theorem allocState_memory_length (n : Nat) : (allocState n).memory.length = n + 1 := by
  simp [allocState]

/-- The key `n + 2` is not yet bound after `n` allocations. -/
theorem allocState_get_fresh (n : Nat) : mapGet (n + 2) (allocState n).memory = none := by
  apply mapGet_eq_none
  intro p hp
  simp only [allocState, List.mem_cons, List.mem_map, List.mem_range] at hp
  rcases hp with rfl | ⟨j, hj, rfl⟩
  · simp
  · simp only []
    omega

/-- While fewer than `2 ^ 32 - 1` arrays are live, the mint does not wrap. -/
theorem allocIdx_allocState (n : Nat) (hn : n < 2 ^ 32 - 2) :
    allocIdx (allocState n) = n + 2 := by
  have hlen : (allocState n).memory.length = n + 1 := allocState_memory_length n
  have hys : (allocState n).reuse = [] := rfl
  rw [allocIdx, hys, hlen]
  have h32 : (2 : Nat) ^ 32 = 4294967296 := by norm_num
  simp only [List.getLast?_nil, h32]
  omega

/-- When the chosen identifier is already bound, `Cpu::allocation` hits
its panic branch. -/
theorem allocation_of_get_some (c : Cpu) (op : Operator) (arr : List Nat)
    (h : mapGet (allocIdx c) c.memory = some arr) : allocation c op = none := by
  unfold allocation
  rw [h]

/-- When the chosen identifier is unbound, `Cpu::allocation` binds it to
a fresh zero array and pops the reuse pool if it drew from it. -/
theorem allocation_of_get_none (c : Cpu) (op : Operator)
    (h : mapGet (allocIdx c) c.memory = none) :
    allocation c op =
      some { c with
              memory := mapInsert (allocIdx c) (List.replicate (getReg c op.C) 0) c.memory
              reuse := if c.reuse.isEmpty then c.reuse else c.reuse.dropLast } := by
  unfold allocation
  rw [h]

/-- One cycle of the one-instruction Allocation program, below the wrap:
a fresh array of capacity 0 appears at key `n + 2`. -/
theorem step_allocState (n : Nat) (hn : n < 2 ^ 32 - 2) :
    step (allocState n) none = some (allocState (n + 1), none) := by
  have hidx : allocIdx (allocState n) = n + 2 := allocIdx_allocState n hn
  have hfresh : mapGet (allocIdx (allocState n)) (allocState n).memory = none := by
    rw [hidx]; exact allocState_get_fresh n
  have hC : getReg (allocState n) (Operator.C ⟨0x80000000⟩) = 0 := rfl
  have halloc : allocation (allocState n) ⟨0x80000000⟩ = some (allocState (n + 1)) := by
    rw [allocation_of_get_none _ _ hfresh, hidx, hC]
    rw [mapInsert_of_get_none _ _ _ (hidx ▸ hfresh)]
    simp [allocState, List.range_succ]
  have hmap : Option.map (fun x => ((x : Cpu), (none : Option Nat)))
      (allocation (allocState n) ⟨0x80000000⟩) = some (allocState (n + 1), none) := by
    rw [halloc]; rfl
  have h0 : mapGet 0 (allocState n).memory = some [0x80000000] := rfl
  have h1 : ([0x80000000] : List Nat)[(allocState n).pc]? = some 0x80000000 := rfl
  have h2 : Operator.number ⟨0x80000000⟩ = 8 := by decide
  unfold step
  rw [h0]
  dsimp only
  rw [h1]
  dsimp only
  unfold execOp
  rw [h2]
  exact hmap

/-- Every state of the Allocation loop below the wrap is reachable. -/
theorem reaches_allocState (n : Nat) (hn : n ≤ 2 ^ 32 - 2) :
    Reaches (allocState 0) (allocState n) := by
  induction n with
  | zero => exact Reaches.refl _
  | succ m ih =>
    exact Reaches.tail (ih (by omega)) rfl (step_allocState m (by omega))

/-- C2: the freshness rule is violated in a reachable state.  Running the
one-instruction program `[0x80000000]` (Allocation of capacity 0; the
program counter is never advanced), every cycle allocates, and after
`2 ^ 32 - 2` successful allocations `memory.len()` is `2 ^ 32 - 1`, so
the next mint `memory.len() as u32 + 1` wraps to 0 — an identifier that
is live (it names the program scroll) — and the handler takes its
`BUG: index incorrectly calculated` panic branch. -/
theorem allocation_panic_reachable :
    Reaches (Cpu.new [0x80000000]) (allocState (2 ^ 32 - 2)) ∧
    allocIdx (allocState (2 ^ 32 - 2)) = 0 ∧
    mapGet 0 (allocState (2 ^ 32 - 2)).memory = some [0x80000000] ∧
    allocation (allocState (2 ^ 32 - 2)) ⟨0x80000000⟩ = none := by
  have hnew : Cpu.new [0x80000000] = allocState 0 := rfl
  have hys : (allocState (2 ^ 32 - 2)).reuse = [] := rfl
  have hidx : allocIdx (allocState (2 ^ 32 - 2)) = 0 := by
    rw [allocIdx, hys, allocState_memory_length]
    have h32 : (2 : Nat) ^ 32 = 4294967296 := by norm_num
    simp only [List.getLast?_nil, h32]
  have h0 : mapGet 0 (allocState (2 ^ 32 - 2)).memory = some [0x80000000] := rfl
  refine ⟨by rw [hnew]; exact reaches_allocState _ le_rfl, hidx, h0, ?_⟩
  exact allocation_of_get_some _ ⟨0x80000000⟩ [0x80000000] (by rw [hidx]; exact h0)

end Um32
